import Mathlib

/-!
# Verification of the agripandas Header Inference & Table Materialization Engine

Shallow embedding of `src/agripandas/loaders.py` (`_normalize_column_names`,
`load_excel`) and `src/agripandas/registry.py` (`DataFrameRegistry`).

Modelling conventions:
* A spreadsheet cell is `Cell`: text, integer number, or missing (pandas `NaN`).
  Python `str(v)` is `cellStr`; `pd.notnull` is `¬ isMissing`.
* A sheet is a `List (List Cell)` of rows.  `pandas` (via openpyxl)
  trims trailing empty cells from each row it reads and parses the rows
  into a rectangular frame whose width is the maximum trimmed row width,
  padding short rows with missing values: `parseGrid`.  With `skiprows`
  the rows are read and padded first and skipped afterwards, so the
  re-read frame keeps the whole sheet's width; when no rows remain the
  frame is empty with zero columns: `reRead`, `reReadWidth`.
* Python string operations are modelled on the underlying character list:
  `str.strip` is `pyStrip`, `str.lower` is `pyLower`,
  `str.replace(" ", "_")` is `replSpace` (each space character separately,
  which is what `replace` with a one-character pattern does).
* Python `f"{b}_{n}"` formatting of a count uses the decimal numeral,
  i.e. `Nat.repr`.
* Exceptions are modelled with `Except`: `LoadErr.indexErr` is the pandas
  `IndexError` raised by `df_peek.iloc[next_idx]` on an out-of-bounds row,
  `LoadErr.widthErr` the pandas `ValueError` raised by assigning a
  column-name list whose length differs from the frame width
  (the spec's `MaterializationError`).  Registry `KeyError`
  (the spec's `NotFoundError`) is `Except.error ()`.
-/

namespace Agripandas

/-- A raw cell value: string, number (Python `int`), or missing (`NaN`). -/
inductive Cell where
  | text : String → Cell
  | num : Int → Cell
  | missing : Cell
deriving DecidableEq

/-- `pd.notnull(v)` is `¬ (isMissing v)`. -/
def Cell.isMissing : Cell → Bool
  | .missing => true
  | _ => false

/-- Python `str(v)` on a cell value (numbers print in decimal). -/
def cellStr : Cell → String
  | .text s => s
  | .num n => toString n
  | .missing => "nan"

/-- Python `str.lower` (ASCII, as `Char.toLower`), on the character list. -/
def pyLower (s : String) : String := ⟨s.data.map Char.toLower⟩

/-- Python `str.strip`: drop whitespace from both ends. -/
def pyStrip (s : String) : String :=
  ⟨((s.data.dropWhile Char.isWhitespace).reverse.dropWhile Char.isWhitespace).reverse⟩

/-- Python `str.replace(" ", "_")`: each space character becomes an underscore. -/
def replSpace (s : String) : String :=
  ⟨s.data.map (fun c => if c = ' ' then '_' else c)⟩

/-! ## Name Normalizer (`_normalize_column_names`, loaders.py lines 25-44) -/

/-- `str(col).strip().lower().replace(" ", "_")` (loaders.py line 36). -/
def normalizeBase (s : String) : String := replSpace (pyLower (pyStrip s))

/-- In-place update of the `seen` dict for `seen[base] += 1`. -/
def bumpSeen : List (String × Nat) → String → List (String × Nat)
  | [], _ => []
  | (k, v) :: rest, b => if k = b then (k, v + 1) :: rest else (k, v) :: bumpSeen rest b

/-- The loop of `_normalize_column_names` over the (already `normalizeBase`d)
column names, carrying the `seen` dict (loaders.py lines 33-42). -/
def normAux : List (String × Nat) → List String → List String
  | _, [] => []
  | seen, b :: bs =>
    match List.lookup b seen with
    | none => b :: normAux ((b, 0) :: seen) bs
    | some c => (b ++ "_" ++ Nat.repr (c + 1)) :: normAux (bumpSeen seen b) bs

/-- `_normalize_column_names` acting on a column-name list. -/
def normalizeNames (raws : List String) : List String :=
  normAux [] (raws.map normalizeBase)

/-! ## Row Classifier / Header Locator (`load_excel` step 1, lines 59-76) -/

/-- The hard-coded anchor keyword set of `load_excel` (line 59). -/
def anchorsAgri : List String := ["tratamento", "parcela", "ramo", "bloco", "nó", "data"]

/-- The non-missing cells of a row (`pd.notnull`). -/
def nonNull (row : List Cell) : List Cell := row.filter (fun c => !c.isMissing)

/-- `[str(v).lower() for v in row if pd.notnull(v)]` (line 69). -/
def rowVals (row : List Cell) : List String := (nonNull row).map (fun c => pyLower (cellStr c))

/-- `any(anchor in row_vals for anchor in anchors)` (line 70). -/
def anchorMatch (anchors : List String) (row : List Cell) : Bool :=
  anchors.any (fun a => (rowVals row).contains a)

/-- `row.count() > df_peek.shape[1] * 0.5` (line 74): over the integers,
`count > ncols * 0.5` is exactly `2 * count > ncols`. -/
def dense (ncols : Nat) (row : List Cell) : Bool :=
  2 * (nonNull row).length > ncols

/-- One loop step fires when the anchor rule or (fallback) density rule holds. -/
def fires (anchors : List String) (ncols : Nat) (row : List Cell) : Bool :=
  anchorMatch anchors row || dense ncols row

/-- Index of the first row on which the loop of lines 68-76 breaks. -/
def locateFrom (anchors : List String) (ncols : Nat) : List (List Cell) → Option Nat
  | [] => none
  | r :: rs =>
    if fires anchors ncols r then some 0
    else (locateFrom anchors ncols rs).map (· + 1)

/-- The Header Locator: scan the first `window` rows; `start_idx` defaults
to `0` when no row fires (lines 67-76). -/
def locate (anchors : List String) (window : Nat) (ncols : Nat)
    (rows : List (List Cell)) : Nat :=
  (locateFrom anchors ncols (rows.take window)).getD 0

/-! ## Header Block Merger (`load_excel` step 2, lines 80-89) -/

/-- `sum(1 for v in row if isinstance(v, str))` (line 84). -/
def strCount (row : List Cell) : Nat :=
  (row.filter (fun c => match c with | .text _ => true | _ => false)).length

/-- `sum(1 for v in row if isinstance(v, (int, float)) and pd.notnull(v))` (line 85). -/
def numCount (row : List Cell) : Nat :=
  (row.filter (fun c => match c with | .num _ => true | _ => false)).length

/-- `str_count > num_count and row.count() > 0` (line 86). -/
def isHeaderLike (row : List Cell) : Bool :=
  strCount row > numCount row && (nonNull row).length > 0

/-- The extension loop body: iterate `next_idx` for `k` more steps, fetching
`df_peek.iloc[next_idx]` each time — which raises `IndexError` when
`next_idx` is outside the peek frame (lines 81-89). -/
def extendAux (rows : List (List Cell)) : Nat → Nat → Except Unit (List Nat)
  | _, 0 => .ok []
  | i, k + 1 =>
    match rows.get? i with
    | none => .error ()
    | some r =>
      if isHeaderLike r then (extendAux rows (i + 1) k).map (fun l => i :: l)
      else .ok []

/-- `header_rows`: `[start_idx]` extended over
`range(start_idx + 1, min(start_idx + 3, 20))` (lines 80-89).
The upper bound is the literal `20` (the requested peek size), not the
actual number of peek rows. -/
def headerRows (rows : List (List Cell)) (start : Nat) : Except Unit (List Nat) :=
  (extendAux rows (start + 1) (min (start + 3) 20 - (start + 1))).map (fun l => start :: l)

/-! ## Header merge (`load_excel` step 3, lines 91-100) -/

/-- `ffill(axis=1)` on one row: a missing cell inherits the nearest
non-missing value to its left. -/
def ffillRowAux : Option Cell → List Cell → List Cell
  | _, [] => []
  | last, c :: cs =>
    if c.isMissing then
      (match last with | none => Cell.missing | some v => v) :: ffillRowAux last cs
    else c :: ffillRowAux (some c) cs

def ffillRow (row : List Cell) : List Cell := ffillRowAux none row

/-- `fillna("")` on one cell. -/
def fillEmpty (c : Cell) : Cell := if c.isMissing then Cell.text "" else c

/-- One step of the fragment-collection loop (lines 98-99): keep `val` when
it is non-empty (Python truthiness) and its lowercase form is not already
among the lowercased parts. -/
def keepFragment (parts : List String) (v : String) : List String :=
  if v = "" then parts
  else if (parts.map pyLower).contains (pyLower v) then parts
  else parts ++ [v]

/-- The inner fragment-collection loop of lines 95-99. -/
def collectParts (vals : List String) : List String :=
  vals.foldl keepFragment []

/-- Composite name of one column (lines 95-100): join kept fragments with
`"_"`, or `unnamed_<col>` (0-based) when no fragment was kept. -/
def compositeName (col : Nat) (vals : List String) : String :=
  let parts := collectParts vals
  if parts.isEmpty then "unnamed_" ++ Nat.repr col else String.intercalate "_" parts

/-- Step 3 in full: forward-fill and `fillna("")` the header rows, then for
each column position collect `str(header_df.iloc[r, col]).strip()`
top-to-bottom and build the composite name (lines 92-100). -/
def mergeHeader (headerGrid : List (List Cell)) (ncols : Nat) : List String :=
  let filled := headerGrid.map (fun r => (ffillRow r).map fillEmpty)
  (List.range ncols).map (fun col =>
    compositeName col
      (filled.map (fun r => pyStrip (cellStr (r.getD col (Cell.text ""))))))

/-! ## Materialization and cleaning (`load_excel` steps 4-5, lines 102-108) -/

/-- openpyxl trims the trailing empty cells of each row it reads. -/
def trimRow (r : List Cell) : List Cell :=
  (r.reverse.dropWhile Cell.isMissing).reverse

/-- Width of a parsed (rectangular) pandas frame for a raw row list:
the maximum trailing-trimmed row width. -/
def maxWidth (rows : List (List Cell)) : Nat :=
  rows.foldr (fun r m => max (trimRow r).length m) 0

/-- Pad one trimmed row with missing values to the frame width. -/
def padRow (w : Nat) (r : List Cell) : List Cell :=
  r ++ List.replicate (w - r.length) Cell.missing

/-- `xls.parse(..., header=None)`: a rectangular frame of the given rows,
each row trailing-trimmed and padded to the common width. -/
def parseGrid (rows : List (List Cell)) : List (List Cell) :=
  rows.map (fun r => padRow (maxWidth rows) (trimRow r))

/-- `df.dropna(how="all")` row test. -/
def rowEmpty (r : List Cell) : Bool := r.all Cell.isMissing

/-- The frame as named columns (for `dropna(axis=1, how="all")`). -/
def columnsOf (names : List String) (rows : List (List Cell)) :
    List (String × List Cell) :=
  (List.range names.length).map
    (fun j => (names.getD j "", rows.map (fun r => r.getD j Cell.missing)))

/-- `dropna(axis=1, how="all")`: keep the columns with a non-missing value. -/
def dropEmptyCols (cols : List (String × List Cell)) : List (String × List Cell) :=
  cols.filter (fun c => !(c.2.all Cell.isMissing))

/-- Step 5: drop fully-empty rows, then fully-empty columns, then
`_normalize_column_names` (lines 106-108). -/
def cleanTable (names : List String) (rows : List (List Cell)) :
    List String × List (List Cell) :=
  let rows1 := rows.filter (fun r => !rowEmpty r)
  let kept := dropEmptyCols (columnsOf names rows1)
  (normalizeNames (kept.map Prod.fst),
   (List.range rows1.length).map (fun i => kept.map (fun c => c.2.getD i Cell.missing)))

/-- A finished table: canonical column names plus data rows. -/
structure Table where
  names : List String
  rows : List (List Cell)
deriving DecidableEq

/-- Errors a sheet load can raise: the `IndexError` of the header-extension
loop, or the `ValueError` of the width-mismatched column assignment
(the spec's `MaterializationError`). -/
inductive LoadErr where
  | indexErr : LoadErr
  | widthErr : LoadErr
deriving DecidableEq

/-- `df_peek` (line 65): the rectangular frame of the first 20 rows. -/
def peekOf (g : List (List Cell)) : List (List Cell) := parseGrid (g.take 20)

/-- `start_idx` for a sheet (lines 67-76). -/
def startOf (g : List (List Cell)) : Nat :=
  locate anchorsAgri 20 (maxWidth (g.take 20)) (peekOf g)

/-- `new_columns` for a sheet, given its header-row indices (lines 91-100). -/
def namesOf (g : List (List Cell)) (hrows : List Nat) : List String :=
  mergeHeader (hrows.map (fun i => (peekOf g).getD i [])) (maxWidth (g.take 20))

/-- The re-read of line 103, `xls.parse(..., skiprows=max(header_rows)+1,
header=None)` (`max` of the nonempty Python list is `foldl max 0` here
since row indices are naturals): pandas reads and pads the WHOLE sheet
first and applies `skiprows` afterwards, so the remaining rows keep the
whole sheet's width. -/
def reRead (g : List (List Cell)) (hrows : List Nat) : List (List Cell) :=
  (parseGrid g).drop (hrows.foldl max 0 + 1)

/-- The width of the re-read frame: the whole sheet's width while any row
remains; an empty frame has zero columns (pandas shape `(0, 0)`). -/
def reReadWidth (g : List (List Cell)) (hrows : List Nat) : Nat :=
  if (reRead g hrows).isEmpty then 0 else maxWidth g

/-- Processing of one sheet inside `load_excel` (lines 64-108): peek at the
first 20 rows, locate the header start, extend the header block, merge the
header, re-read the sheet skipping the header block, check the width (the
`df.columns = new_columns` assignment raises exactly when the name count
differs from the re-read frame's column count), clean and normalize.
Returns the finished table and the header-row indices (recorded in the
registry metadata). -/
def loadSheet (g : List (List Cell)) : Except LoadErr (Table × List Nat) :=
  match headerRows (peekOf g) (startOf g) with
  | .error _ => .error .indexErr
  | .ok hrows =>
    if (namesOf g hrows).length ≠ reReadWidth g hrows then .error .widthErr
    else
      .ok (⟨(cleanTable (namesOf g hrows) (reRead g hrows)).1,
            (cleanTable (namesOf g hrows) (reRead g hrows)).2⟩, hrows)

/-! ## Registry (`registry.py`) -/

/-- A metadata value as stored by the loaders. -/
inductive MetaVal where
  | s : String → MetaVal
  | ns : List Nat → MetaVal
deriving DecidableEq

/-- Container for a dataframe and its associated metadata (`DataFrameEntry`). -/
structure DataFrameEntry where
  dataframe : Table
  metadata : List (String × MetaVal)
deriving DecidableEq

/-- `DataFrameRegistry._tables`: a Python dict, i.e. an insertion-ordered
map with unique keys. -/
abbrev DataFrameRegistry := List (String × DataFrameEntry)

/-- `register`: overwrite in place when the name exists, else append. -/
def registerTable (reg : DataFrameRegistry) (name : String) (e : DataFrameEntry) :
    DataFrameRegistry :=
  if (List.lookup name reg).isSome then
    reg.map (fun p => if p.1 = name then (name, e) else p)
  else reg ++ [(name, e)]

/-- `get`: `self._tables[name].dataframe`, `KeyError` when absent. -/
def getTable (reg : DataFrameRegistry) (name : String) : Except Unit Table :=
  match List.lookup name reg with
  | some e => .ok e.dataframe
  | none => .error ()

/-- `get_metadata`: `self._tables[name].metadata`, `KeyError` when absent. -/
def getMetadata (reg : DataFrameRegistry) (name : String) :
    Except Unit (List (String × MetaVal)) :=
  match List.lookup name reg with
  | some e => .ok e.metadata
  | none => .error ()

/-- `list`: the registered names in insertion order. -/
def listTables (reg : DataFrameRegistry) : List String := reg.map Prod.fst

/-- `unregister`: `del self._tables[name]`, `KeyError` when absent. -/
def unregister (reg : DataFrameRegistry) (name : String) :
    Except Unit DataFrameRegistry :=
  if (List.lookup name reg).isSome then .ok (reg.filter (fun p => p.1 ≠ name))
  else .error ()

/-! ## The sheet loop of `load_excel` (lines 61-121) -/

/-- `f"{file_path.stem}__{sheet_name.strip().lower()}"` (line 110). -/
def tableName (stem : String) (sheetName : String) : String :=
  stem ++ "__" ++ pyLower (pyStrip sheetName)

/-- The registry metadata recorded for one sheet (lines 111-119). -/
def sheetMeta (p : String) (sheetName : String) (hrows : List Nat) :
    List (String × MetaVal) :=
  [("file_path", .s p), ("sheet", .s sheetName), ("header_rows", .ns hrows)]

/-- The `for sheet_name in sheet_names` loop: sheets are processed in order
and registered one by one; an uncaught exception aborts the whole call,
leaving the registrations made so far in place and the remaining sheets
unprocessed. -/
def loadExcelInto (stem : String) (reg : DataFrameRegistry) :
    List (String × List (List Cell)) → DataFrameRegistry × Option LoadErr
  | [] => (reg, none)
  | (nm, g) :: rest =>
    match loadSheet g with
    | .error e => (reg, some e)
    | .ok (t, hrows) =>
      loadExcelInto stem
        (registerTable reg (tableName stem nm) ⟨t, sheetMeta stem nm hrows⟩) rest

/-! ## Auxiliary reference definitions used to state and prove properties -/

/-- Reference form of the decimal digit list produced by `Nat.toDigits 10`. -/
def digitsRec (n : Nat) : List Char :=
  if _h : n < 10 then [Nat.digitChar n]
  else digitsRec (n / 10) ++ [Nat.digitChar (n % 10)]
decreasing_by exact Nat.div_lt_self (by omega) (by omega)

/-- Decimal value of a digit-character list (left inverse of `digitsRec`). -/
def digitsVal (l : List Char) : Nat :=
  l.foldl (fun a c => 10 * a + (c.toNat - 48)) 0

/-- The emitted canonical name for a base name whose count of earlier
occurrences is `k`: the bare base for the first occurrence, `base_k`
for the `k`-th later occurrence. -/
def emit (b : String) (k : Nat) : String :=
  if k = 0 then b else b ++ "_" ++ Nat.repr k

/-- Count-based reference form of the `_normalize_column_names` loop:
`prev` is the list of base names already processed. -/
def goNorm (prev : List String) : List String → List String
  | [] => []
  | b :: bs => emit b (prev.count b) :: goNorm (prev ++ [b]) bs

/-- Invariant tying the `seen` dict of `_normalize_column_names` to the
processed prefix `prev` of base names. -/
def SeenInv (seen : List (String × Nat)) (prev : List String) : Prop :=
  ∀ b : String,
    List.lookup b seen = if prev.count b = 0 then none else some (prev.count b - 1)

/-- No base name is another base name followed by `"_"` and a positive
decimal numeral.  Under this hypothesis the suffixing scheme of
`_normalize_column_names` cannot collide. -/
def BaseSuffixFree (bases : List String) : Prop :=
  ∀ b1 b2, b1 ∈ bases → b2 ∈ bases → ∀ k : Nat, b1 ≠ b2 ++ "_" ++ Nat.repr (k + 1)

/-- Collapse each whitespace run to a single underscore (the flag records
whether the previous character was whitespace). -/
def collapseWS : Bool → List Char → List Char
  | _, [] => []
  | prevWS, c :: cs =>
    if c.isWhitespace then
      (if prevWS then collapseWS true cs else '_' :: collapseWS true cs)
    else c :: collapseWS false cs

/-- Modelled from the spec claim's words (not from the source): trim
surrounding whitespace, lowercase, replace each internal whitespace RUN
(of any length, including tabs) with a single underscore.  Used only to
compare with `normalizeBase`, which is the source's transform. -/
def specNormalizeName (s : String) : String :=
  ⟨collapseWS false (pyLower (pyStrip s)).data⟩

/-! # Theorems

## Facts about decimal numerals (`Nat.repr`) -/

theorem digitChar_lt10_ne_underscore (d : Nat) (h : d < 10) : Nat.digitChar d ≠ '_' := by
  interval_cases d <;> decide

theorem digitChar_toNat (d : Nat) (h : d < 10) : (Nat.digitChar d).toNat - 48 = d := by
  interval_cases d <;> rfl

theorem digitsRec_eq_lt (n : Nat) (h : n < 10) : digitsRec n = [Nat.digitChar n] := by
  unfold digitsRec
  exact dif_pos h

theorem digitsRec_eq_ge (n : Nat) (h : ¬ n < 10) :
    digitsRec n = digitsRec (n / 10) ++ [Nat.digitChar (n % 10)] := by
  conv_lhs => unfold digitsRec
  exact dif_neg h

theorem toDigitsCore_eq_digitsRec :
    ∀ (fuel n : Nat) (acc : List Char), n < fuel →
      Nat.toDigitsCore 10 fuel n acc = digitsRec n ++ acc := by
  intro fuel
  induction fuel with
  | zero => intro n acc h; omega
  | succ f ih =>
    intro n acc h
    show (if n / 10 = 0 then Nat.digitChar (n % 10) :: acc
          else Nat.toDigitsCore 10 f (n / 10) (Nat.digitChar (n % 10) :: acc))
        = digitsRec n ++ acc
    by_cases h10 : n / 10 = 0
    · have hn : n < 10 := by omega
      rw [if_pos h10, digitsRec_eq_lt n hn, Nat.mod_eq_of_lt hn]
      rfl
    · have hn : ¬ n < 10 := by omega
      rw [if_neg h10, digitsRec_eq_ge n hn, List.append_assoc]
      exact ih (n / 10) _ (by omega)

theorem repr_data (n : Nat) : (Nat.repr n).data = digitsRec n := by
  show (Nat.toDigits 10 n).asString.data = digitsRec n
  rw [Nat.toDigits, toDigitsCore_eq_digitsRec (n + 1) n [] (by omega)]
  simp [List.asString]

theorem digitsRec_ne_underscore (n : Nat) : ∀ c ∈ digitsRec n, c ≠ '_' := by
  induction n using Nat.strong_induction_on with
  | _ n ih =>
    by_cases h : n < 10
    · rw [digitsRec_eq_lt n h]
      simp only [List.mem_singleton]
      intro c hc
      exact hc ▸ digitChar_lt10_ne_underscore n h
    · rw [digitsRec_eq_ge n h]
      intro c hc
      rcases List.mem_append.1 hc with hm | hm
      · exact ih (n / 10) (Nat.div_lt_self (by omega) (by omega)) c hm
      · rw [List.mem_singleton] at hm
        exact hm ▸ digitChar_lt10_ne_underscore (n % 10) (by omega)

theorem repr_ne_underscore (n : Nat) : ∀ c ∈ (Nat.repr n).data, c ≠ '_' := by
  rw [repr_data]; exact digitsRec_ne_underscore n

theorem digitsRec_ne_nil (n : Nat) : digitsRec n ≠ [] := by
  by_cases h : n < 10
  · rw [digitsRec_eq_lt n h]; simp
  · rw [digitsRec_eq_ge n h]; simp

theorem digitsVal_digitsRec (n : Nat) : digitsVal (digitsRec n) = n := by
  induction n using Nat.strong_induction_on with
  | _ n ih =>
    by_cases h : n < 10
    · rw [digitsRec_eq_lt n h]
      simp only [digitsVal, List.foldl_cons, List.foldl_nil]
      rw [digitChar_toNat n h]
      omega
    · rw [digitsRec_eq_ge n h]
      simp only [digitsVal, List.foldl_append, List.foldl_cons, List.foldl_nil]
      have hv := ih (n / 10) (Nat.div_lt_self (by omega) (by omega))
      simp only [digitsVal] at hv
      rw [hv, digitChar_toNat (n % 10) (by omega)]
      omega

theorem repr_inj {m n : Nat} (h : Nat.repr m = Nat.repr n) : m = n := by
  have hd : digitsRec m = digitsRec n := by
    rw [← repr_data, ← repr_data, h]
  calc m = digitsVal (digitsRec m) := (digitsVal_digitsRec m).symm
    _ = digitsVal (digitsRec n) := by rw [hd]
    _ = n := digitsVal_digitsRec n

theorem repr_data_length_pos (n : Nat) : 0 < (Nat.repr n).data.length := by
  rw [repr_data]
  exact List.length_pos.2 (digitsRec_ne_nil n)

/-! ## Splitting a suffixed name at its final underscore -/

theorem takeWhile_append_cons {p : Char → Bool} (y : Char) (ys : List Char)
    (hy : p y = false) :
    ∀ xs : List Char, (∀ x ∈ xs, p x = true) → (xs ++ y :: ys).takeWhile p = xs := by
  intro xs
  induction xs with
  | nil => intro _; simp [List.takeWhile_cons, hy]
  | cons a as ih =>
    intro hxs
    have ha : p a = true := hxs a (by simp)
    simp [List.takeWhile_cons, ha, ih (fun x hx => hxs x (by simp [hx]))]

theorem append_underscore_inj (a d b e : List Char)
    (hd : ∀ c ∈ d, c ≠ '_') (he : ∀ c ∈ e, c ≠ '_')
    (h : a ++ '_' :: d = b ++ '_' :: e) : a = b ∧ d = e := by
  have hrev : d.reverse ++ '_' :: a.reverse = e.reverse ++ '_' :: b.reverse := by
    have h2 := congrArg List.reverse h
    simpa [List.reverse_append] using h2
  have hde : d.reverse = e.reverse := by
    have h1 : (d.reverse ++ '_' :: a.reverse).takeWhile (fun c => !(c == '_'))
        = d.reverse := by
      apply takeWhile_append_cons _ _ (by simp)
      intro x hx
      simpa using hd x (List.mem_reverse.1 hx)
    have h2 : (e.reverse ++ '_' :: b.reverse).takeWhile (fun c => !(c == '_'))
        = e.reverse := by
      apply takeWhile_append_cons _ _ (by simp)
      intro x hx
      simpa using he x (List.mem_reverse.1 hx)
    rw [← h1, hrev, h2]
  have hde2 : d = e := List.reverse_injective hde
  subst hde2
  exact ⟨List.append_cancel_right h, rfl⟩

theorem string_eq_of_data_eq {s t : String} (h : s.data = t.data) : s = t := by
  cases s
  cases t
  exact congrArg String.mk h

theorem string_suffix_inj (b1 b2 : String) (m n : Nat)
    (h : b1 ++ "_" ++ Nat.repr m = b2 ++ "_" ++ Nat.repr n) : b1 = b2 ∧ m = n := by
  have hdata : b1.data ++ '_' :: (Nat.repr m).data
      = b2.data ++ '_' :: (Nat.repr n).data := by
    have h2 := congrArg String.data h
    have hu : ("_" : String).data = ['_'] := rfl
    simpa [String.data_append, hu] using h2
  obtain ⟨h1, h2⟩ := append_underscore_inj _ _ _ _
    (repr_ne_underscore m) (repr_ne_underscore n) hdata
  refine ⟨string_eq_of_data_eq h1, repr_inj (string_eq_of_data_eq h2)⟩

theorem ne_append_repr (b1 b2 : String) (hlen : b1.data.length ≤ b2.data.length)
    (k : Nat) : b1 ≠ b2 ++ "_" ++ Nat.repr k := by
  intro h
  have hdata : b1.data = b2.data ++ '_' :: (Nat.repr k).data := by
    have h2 := congrArg String.data h
    have hu : ("_" : String).data = ['_'] := rfl
    simpa [String.data_append, hu] using h2
  have hl := congrArg List.length hdata
  simp only [List.length_append, List.length_cons] at hl
  have hk := repr_data_length_pos k
  omega

/-! ## The `_normalize_column_names` loop: seen-dict elimination -/

theorem lookup_bumpSeen_self (b : String) :
    ∀ (seen : List (String × Nat)) (c : Nat),
      List.lookup b seen = some c → List.lookup b (bumpSeen seen b) = some (c + 1) := by
  intro seen
  induction seen with
  | nil => intro c h; simp [List.lookup] at h
  | cons p rest ih =>
    intro c h
    obtain ⟨k, v⟩ := p
    by_cases hk : k = b
    · subst hk
      simp only [List.lookup, beq_self_eq_true] at h
      simp only [bumpSeen, if_pos rfl, List.lookup, beq_self_eq_true]
      simpa using h
    · have hbk : (b == k) = false := by
        simp [beq_eq_false_iff_ne]
        exact fun hbk => hk hbk.symm
      simp only [List.lookup, hbk] at h
      simp only [bumpSeen, if_neg hk, List.lookup, hbk]
      exact ih c h

theorem lookup_bumpSeen_other (b b' : String) (hne : b' ≠ b) :
    ∀ seen : List (String × Nat),
      List.lookup b' (bumpSeen seen b) = List.lookup b' seen := by
  intro seen
  induction seen with
  | nil => simp [bumpSeen]
  | cons p rest ih =>
    obtain ⟨k, v⟩ := p
    by_cases hk : k = b
    · subst hk
      have hbk : (b' == k) = false := by simpa [beq_eq_false_iff_ne] using hne
      simp only [bumpSeen, if_pos rfl, List.lookup, hbk]
    · simp only [bumpSeen, if_neg hk, List.lookup]
      by_cases hb'k : b' = k
      · subst hb'k
        simp
      · have hbk : (b' == k) = false := by simpa [beq_eq_false_iff_ne] using hb'k
        simp only [hbk]
        exact ih

theorem seenInv_nil : SeenInv [] [] := by
  intro b
  simp [List.lookup]

theorem seenInv_insert (seen : List (String × Nat)) (prev : List String) (b : String)
    (hinv : SeenInv seen prev) (h0 : prev.count b = 0) :
    SeenInv ((b, 0) :: seen) (prev ++ [b]) := by
  intro b'
  by_cases hb : b' = b
  · subst hb
    simp only [List.lookup, beq_self_eq_true, List.count_append, h0]
    simp
  · have hbk : (b' == b) = false := by simpa [beq_eq_false_iff_ne] using hb
    simp only [List.lookup, hbk, List.count_append]
    have hcnt : List.count b' [b] = 0 := by
      simp [List.count_singleton]
      exact fun h2 => hb h2.symm
    rw [hcnt]
    simpa using hinv b'

theorem seenInv_bump (seen : List (String × Nat)) (prev : List String) (b : String)
    (c : Nat) (hinv : SeenInv seen prev) (hc : prev.count b = c + 1) :
    SeenInv (bumpSeen seen b) (prev ++ [b]) := by
  intro b'
  by_cases hb : b' = b
  · subst hb
    have hsome : List.lookup b' seen = some c := by
      rw [hinv b', hc]
      simp
    rw [lookup_bumpSeen_self b' seen c hsome]
    simp only [List.count_append, hc, List.count_singleton]
    simp
  · rw [lookup_bumpSeen_other b b' hb seen]
    simp only [List.count_append]
    have hcnt : List.count b' [b] = 0 := by
      simp [List.count_singleton]
      exact fun h2 => hb h2.symm
    rw [hcnt]
    simpa using hinv b'

theorem normAux_eq_goNorm :
    ∀ (bs : List String) (seen : List (String × Nat)) (prev : List String),
      SeenInv seen prev → normAux seen bs = goNorm prev bs := by
  intro bs
  induction bs with
  | nil => intro seen prev _; rfl
  | cons b rest ih =>
    intro seen prev hinv
    have hb := hinv b
    cases hc : prev.count b with
    | zero =>
      rw [hc] at hb
      simp only [if_pos rfl] at hb
      simp only [normAux, hb, goNorm, emit, hc, if_pos rfl]
      exact congrArg _ (ih _ _ (seenInv_insert seen prev b hinv hc))
    | succ c =>
      rw [hc] at hb
      simp only [Nat.succ_ne_zero, if_neg, Nat.add_sub_cancel] at hb
      simp only [normAux, hb, goNorm, emit, hc]
      rw [if_neg (Nat.succ_ne_zero c)]
      exact congrArg _ (ih _ _ (seenInv_bump seen prev b c hinv hc))

theorem normalizeNames_eq_goNorm (raws : List String) :
    normalizeNames raws = goNorm [] (raws.map normalizeBase) :=
  normAux_eq_goNorm (raws.map normalizeBase) [] [] seenInv_nil

theorem goNorm_length : ∀ (bs prev : List String), (goNorm prev bs).length = bs.length := by
  intro bs
  induction bs with
  | nil => intro prev; rfl
  | cons b rest ih => intro prev; simp [goNorm, ih]

theorem normalizeNames_length (raws : List String) :
    (normalizeNames raws).length = raws.length := by
  rw [normalizeNames_eq_goNorm, goNorm_length, List.length_map]

theorem goNorm_getD :
    ∀ (bs prev : List String) (i : Nat), i < bs.length →
      (goNorm prev bs).getD i "" =
        emit (bs.getD i "") ((prev ++ bs.take i).count (bs.getD i "")) := by
  intro bs
  induction bs with
  | nil => intro prev i h; simp at h
  | cons b rest ih =>
    intro prev i h
    cases i with
    | zero => simp [goNorm]
    | succ i =>
      simp only [goNorm, List.getD_cons_succ, List.take_succ_cons]
      rw [ih (prev ++ [b]) i (by simpa using h)]
      have hassoc : prev ++ b :: rest.take i = (prev ++ [b]) ++ rest.take i := by
        simp
      rw [hassoc]

theorem mem_goNorm :
    ∀ (bs prev : List String) (x : String), x ∈ goNorm prev bs →
      ∃ l b r, bs = l ++ b :: r ∧ x = emit b ((prev ++ l).count b) := by
  intro bs
  induction bs with
  | nil => intro prev x h; simp [goNorm] at h
  | cons b rest ih =>
    intro prev x h
    simp only [goNorm, List.mem_cons] at h
    rcases h with h | h
    · exact ⟨[], b, rest, rfl, by simpa using h⟩
    · obtain ⟨l, b', r, hbs, hx⟩ := ih (prev ++ [b]) x h
      refine ⟨b :: l, b', r, by rw [hbs]; exact (List.cons_append b l (b' :: r)).symm, ?_⟩
      rw [hx]
      have hassoc : (prev ++ [b]) ++ l = prev ++ b :: l := by simp
      rw [hassoc]

theorem emit_inj (bases : List String) (hB : BaseSuffixFree bases)
    (b1 b2 : String) (hb1 : b1 ∈ bases) (hb2 : b2 ∈ bases) (k1 k2 : Nat)
    (h : emit b1 k1 = emit b2 k2) : b1 = b2 ∧ k1 = k2 := by
  unfold emit at h
  by_cases h1 : k1 = 0 <;> by_cases h2 : k2 = 0
  · rw [if_pos h1, if_pos h2] at h
    exact ⟨h, h1.trans h2.symm⟩
  · rw [if_pos h1, if_neg h2] at h
    obtain ⟨k, hk⟩ := Nat.exists_eq_succ_of_ne_zero h2
    rw [hk] at h
    exact absurd h (hB b1 b2 hb1 hb2 k)
  · rw [if_neg h1, if_pos h2] at h
    obtain ⟨k, hk⟩ := Nat.exists_eq_succ_of_ne_zero h1
    rw [hk] at h
    exact absurd h.symm (hB b2 b1 hb2 hb1 k)
  · rw [if_neg h1, if_neg h2] at h
    obtain ⟨hb, hk⟩ := string_suffix_inj b1 b2 k1 k2 h
    exact ⟨hb, hk⟩

theorem goNorm_nodup :
    ∀ (bs prev : List String), BaseSuffixFree (prev ++ bs) → (goNorm prev bs).Nodup := by
  intro bs
  induction bs with
  | nil => intro prev _; simp [goNorm]
  | cons b rest ih =>
    intro prev hB
    have hassoc : prev ++ b :: rest = (prev ++ [b]) ++ rest := by simp
    rw [goNorm, List.nodup_cons]
    constructor
    · intro hmem
      obtain ⟨l, b', r, hbs, hx⟩ := mem_goNorm rest (prev ++ [b]) _ hmem
      have hb_mem : b ∈ prev ++ b :: rest := by simp
      have hb'_mem : b' ∈ prev ++ b :: rest := by
        simp only [List.mem_append, List.mem_cons]
        right; right
        rw [hbs]
        simp
      obtain ⟨hbeq, hkeq⟩ := emit_inj _ hB b b' hb_mem hb'_mem _ _ hx
      subst hbeq
      have hcount : ((prev ++ [b]) ++ l).count b = prev.count b + 1 + l.count b := by
        simp [List.count_append]
        omega
      omega
    · apply ih
      rw [← hassoc]
      exact hB


/-! ## The fragment-collection loop of the Header Block Merger -/

theorem keepFragment_empty (parts : List String) (v : String) (h : v = "") :
    keepFragment parts v = parts := by
  unfold keepFragment; rw [if_pos h]

theorem keepFragment_dup (parts : List String) (v : String) (h1 : v ≠ "")
    (h2 : (parts.map pyLower).contains (pyLower v) = true) :
    keepFragment parts v = parts := by
  unfold keepFragment; rw [if_neg h1, if_pos h2]

theorem keepFragment_keep (parts : List String) (v : String) (h1 : v ≠ "")
    (h2 : ¬ (parts.map pyLower).contains (pyLower v) = true) :
    keepFragment parts v = parts ++ [v] := by
  unfold keepFragment; rw [if_neg h1, if_neg h2]

theorem foldl_keepFragment_extend :
    ∀ (vals parts : List String),
      ∃ t, vals.foldl keepFragment parts = parts ++ t ∧ t.Sublist vals := by
  intro vals
  induction vals with
  | nil => intro parts; exact ⟨[], by simp, List.nil_sublist []⟩
  | cons v vs ih =>
    intro parts
    rw [List.foldl_cons]
    by_cases h1 : v = ""
    · rw [keepFragment_empty parts v h1]
      obtain ⟨t, ht, hs⟩ := ih parts
      exact ⟨t, ht, hs.cons v⟩
    · by_cases h2 : (parts.map pyLower).contains (pyLower v) = true
      · rw [keepFragment_dup parts v h1 h2]
        obtain ⟨t, ht, hs⟩ := ih parts
        exact ⟨t, ht, hs.cons v⟩
      · rw [keepFragment_keep parts v h1 h2]
        obtain ⟨t, ht, hs⟩ := ih (parts ++ [v])
        exact ⟨v :: t, by rw [ht, List.append_assoc]; rfl, hs.cons₂ v⟩

theorem mem_foldl_keepFragment :
    ∀ (vals parts : List String) (p : String),
      p ∈ vals.foldl keepFragment parts → p ∈ parts ∨ (p ∈ vals ∧ p ≠ "") := by
  intro vals
  induction vals with
  | nil => intro parts p h; exact Or.inl (by simpa using h)
  | cons v vs ih =>
    intro parts p h
    rw [List.foldl_cons] at h
    by_cases h1 : v = ""
    · rw [keepFragment_empty parts v h1] at h
      rcases ih parts p h with hp | ⟨hp1, hp2⟩
      · exact Or.inl hp
      · exact Or.inr ⟨List.mem_cons_of_mem v hp1, hp2⟩
    · by_cases h2 : (parts.map pyLower).contains (pyLower v) = true
      · rw [keepFragment_dup parts v h1 h2] at h
        rcases ih parts p h with hp | ⟨hp1, hp2⟩
        · exact Or.inl hp
        · exact Or.inr ⟨List.mem_cons_of_mem v hp1, hp2⟩
      · rw [keepFragment_keep parts v h1 h2] at h
        rcases ih (parts ++ [v]) p h with hp | ⟨hp1, hp2⟩
        · rcases List.mem_append.1 hp with hp | hp
          · exact Or.inl hp
          · rw [List.mem_singleton] at hp
            exact Or.inr ⟨hp ▸ List.mem_cons_self v vs, hp ▸ h1⟩
        · exact Or.inr ⟨List.mem_cons_of_mem v hp1, hp2⟩

theorem nodup_foldl_keepFragment :
    ∀ (vals parts : List String), (parts.map pyLower).Nodup →
      ((vals.foldl keepFragment parts).map pyLower).Nodup := by
  intro vals
  induction vals with
  | nil => intro parts h; simpa using h
  | cons v vs ih =>
    intro parts h
    rw [List.foldl_cons]
    by_cases h1 : v = ""
    · rw [keepFragment_empty parts v h1]; exact ih parts h
    · by_cases h2 : (parts.map pyLower).contains (pyLower v) = true
      · rw [keepFragment_dup parts v h1 h2]; exact ih parts h
      · rw [keepFragment_keep parts v h1 h2]
        apply ih
        rw [List.map_append]
        simp only [List.map_cons, List.map_nil]
        apply List.Nodup.append h (List.nodup_singleton _)
        intro x hx hx2
        rw [List.mem_singleton] at hx2
        subst hx2
        exact h2 (by simpa using hx)

theorem lower_mem_foldl_keepFragment :
    ∀ (vals parts : List String) (v : String), v ∈ vals → v ≠ "" →
      pyLower v ∈ (vals.foldl keepFragment parts).map pyLower := by
  intro vals
  induction vals with
  | nil => intro parts v h; simp at h
  | cons w ws ih =>
    intro parts v hv hne
    rw [List.foldl_cons]
    rcases List.mem_cons.1 hv with hv | hv
    · subst hv
      by_cases h2 : (parts.map pyLower).contains (pyLower v) = true
      · rw [keepFragment_dup parts v hne h2]
        obtain ⟨t, ht, _⟩ := foldl_keepFragment_extend ws parts
        rw [ht, List.map_append]
        exact List.mem_append_left _ (by simpa using h2)
      · rw [keepFragment_keep parts v hne h2]
        obtain ⟨t, ht, _⟩ := foldl_keepFragment_extend ws (parts ++ [v])
        rw [ht, List.map_append, List.map_append]
        exact List.mem_append_left _ (List.mem_append_right _ (by simp))
    · exact ih _ v hv hne

/-! ## The Header Locator loop -/

theorem locateFrom_eq_some (anchors : List String) (ncols : Nat) :
    ∀ (l : List (List Cell)) (k : Nat), k < l.length →
      fires anchors ncols (l.getD k []) = true →
      (∀ j, j < k → fires anchors ncols (l.getD j []) = false) →
      locateFrom anchors ncols l = some k := by
  intro l
  induction l with
  | nil => intro k h; simp at h
  | cons r rs ih =>
    intro k hk hfire hbefore
    cases k with
    | zero =>
      simp only [List.getD_cons_zero] at hfire
      simp [locateFrom, hfire]
    | succ k =>
      have h0 : fires anchors ncols r = false := by
        have := hbefore 0 (Nat.succ_pos k)
        simpa using this
      simp only [locateFrom, h0, Bool.false_eq_true, if_false]
      rw [ih k (by simpa using hk) (by simpa using hfire)
        (fun j hj => by simpa using hbefore (j + 1) (by omega))]
      rfl

theorem getD_take {α : Type} (l : List α) (w j : Nat) (d : α) (h : j < w) :
    (l.take w).getD j d = l.getD j d := by
  simp [List.getD, List.getElem?_take, h]

/-! ## Cleaning and normalizing widths -/

theorem normAux_length : ∀ (bs : List String) (seen : List (String × Nat)),
    (normAux seen bs).length = bs.length := by
  intro bs
  induction bs with
  | nil => intro seen; rfl
  | cons b rest ih =>
    intro seen
    unfold normAux
    cases List.lookup b seen <;> simp [ih]

theorem normalizeNames_length2 (raws : List String) :
    (normalizeNames raws).length = raws.length := by
  unfold normalizeNames
  rw [normAux_length, List.length_map]

theorem cleanTable_width (names : List String) (rows : List (List Cell)) :
    ∀ r ∈ (cleanTable names rows).2, r.length = (cleanTable names rows).1.length := by
  intro r hr
  unfold cleanTable at hr ⊢
  simp only [List.mem_map, List.mem_range] at hr
  obtain ⟨i, _, hrow⟩ := hr
  rw [← hrow, normalizeNames_length2]
  simp

theorem loadSheet_ok_clean (g : List (List Cell)) (t : Table) (hr : List Nat)
    (h : loadSheet g = .ok (t, hr)) :
    t.names = (cleanTable (namesOf g hr) (reRead g hr)).1
      ∧ t.rows = (cleanTable (namesOf g hr) (reRead g hr)).2 := by
  unfold loadSheet at h
  split at h
  · exact Except.noConfusion h
  · rename_i x hrows2 heq
    split at h
    · exact Except.noConfusion h
    · simp only [Except.ok.injEq, Prod.mk.injEq] at h
      obtain ⟨ht, hhr⟩ := h
      subst hhr
      rw [← ht]
      exact ⟨rfl, rfl⟩

/-! ## Registry dictionary operations -/

theorem lookup_eq_none_of_keys {β : Type} (name : String) :
    ∀ l : List (String × β), (∀ q ∈ l, q.1 ≠ name) → List.lookup name l = none := by
  intro l
  induction l with
  | nil => intro _; rfl
  | cons q rest ih =>
    intro hq
    obtain ⟨k, v⟩ := q
    have hk : k ≠ name := hq (k, v) (List.mem_cons_self _ _)
    have hbk : (name == k) = false := by
      simp only [beq_eq_false_iff_ne]
      exact fun h2 => hk h2.symm
    simp only [List.lookup, hbk]
    exact ih (fun q hq2 => hq q (List.mem_cons_of_mem _ hq2))

theorem lookup_filter_self {β : Type} (name : String) (l : List (String × β)) :
    List.lookup name (l.filter (fun p => p.1 ≠ name)) = none := by
  apply lookup_eq_none_of_keys
  intro q hq
  have h2 := (List.mem_filter.1 hq).2
  simpa using h2

theorem lookup_filter_other {β : Type} (name m : String) (hne : m ≠ name) :
    ∀ l : List (String × β),
      List.lookup m (l.filter (fun p => p.1 ≠ name)) = List.lookup m l := by
  intro l
  induction l with
  | nil => rfl
  | cons q rest ih =>
    obtain ⟨k, v⟩ := q
    by_cases hk : k = name
    · subst hk
      have h1 : ((k, v) :: rest).filter (fun p : String × β => p.1 ≠ k)
          = rest.filter (fun p : String × β => p.1 ≠ k) := by
        rw [List.filter_cons]
        simp
      rw [h1]
      have hbk : (m == k) = false := by
        simp only [beq_eq_false_iff_ne]
        exact hne
      simp only [List.lookup, hbk]
      exact ih
    · have h1 : ((k, v) :: rest).filter (fun p : String × β => p.1 ≠ name)
          = (k, v) :: rest.filter (fun p : String × β => p.1 ≠ name) := by
        rw [List.filter_cons]
        simp [hk]
      rw [h1]
      by_cases hmk : m = k
      · subst hmk
        simp [List.lookup]
      · have hbk : (m == k) = false := by
          simp only [beq_eq_false_iff_ne]
          exact hmk
        simp only [List.lookup, hbk]
        exact ih


/-! # Claim theorems -/

/-- C1 is false as stated: in this two-row grid, row 1 is the only
anchor-matching row within the window, but row 0 already exceeds the 50%
non-empty density threshold, and the Header Locator returns 0, not 1:
an earlier density-qualifying row preempts a later anchor row. -/
theorem c1_counterexample :
    locate ["plot"] 20 1 [[Cell.text "x"], [Cell.text "plot"]] = 0 ∧
    anchorMatch ["plot"] [Cell.text "plot"] = true ∧
    anchorMatch ["plot"] [Cell.text "x"] = false ∧
    dense 1 [Cell.text "x"] = true :=
  ⟨rfl, rfl, rfl, rfl⟩

/-- C1 (amended): the Header Locator returns the first row index within the
lookahead window at which either the anchor rule or the density fallback
fires (`fires`); the anchor check precedes the density check only within a
single row, so an anchor match on a later row does not override an earlier
density-qualifying row. -/
theorem c1_locator_first_fire (anchors : List String) (window ncols : Nat)
    (rows : List (List Cell)) (k : Nat) (hkr : k < rows.length) (hkw : k < window)
    (hfire : fires anchors ncols (rows.getD k []) = true)
    (hbefore : ∀ j, j < k → fires anchors ncols (rows.getD j []) = false) :
    locate anchors window ncols rows = k := by
  unfold locate
  rw [locateFrom_eq_some anchors ncols (rows.take window) k ?hlen ?hf ?hb]
  · rfl
  case hlen => rw [List.length_take]; omega
  case hf => rw [getD_take rows window k [] hkw]; exact hfire
  case hb =>
    intro j hj
    rw [getD_take rows window j [] (by omega)]
    exact hbefore j hj

theorem c1_locator_first_fire_witness :
    locate ["bloco"] 20 5 [[Cell.text "x"], [Cell.text "bloco"]] = 1 := by
  apply c1_locator_first_fire ["bloco"] 20 5 _ 1 (by decide) (by decide) (by decide)
  intro j hj
  have hj0 : j = 0 := by omega
  subst hj0
  decide

/-- C2 is violated by the code: on a sheet with a single row, the header
start is located at row 0, and the header-extension loop then fetches
`df_peek.iloc[1]` in a one-row peek frame, raising `IndexError`:
the locating/merging heuristics CAN fail, before any materialization. -/
theorem c2_short_sheet_index_error :
    loadSheet [[Cell.text "tratamento"]] = .error .indexErr ∧
    startOf [[Cell.text "tratamento"]] = 0 :=
  ⟨rfl, rfl⟩

/-- C3 is false as stated: running the full pipeline on a sheet whose header
row is ["plot", "plot", "plot_1"] produces the finished column names
["plot", "plot_1", "plot_1"], which contain a duplicate: a later raw name
equal to an earlier column's suffixed name defeats uniqueness. -/
theorem c3_counterexample :
    Except.map (fun p => (Prod.fst p).names)
      (loadSheet [[Cell.text "plot", Cell.text "plot", Cell.text "plot_1"],
                  [Cell.num 1, Cell.num 2, Cell.num 3]])
      = .ok ["plot", "plot_1", "plot_1"] ∧
    ¬ (["plot", "plot_1", "plot_1"] : List String).Nodup :=
  ⟨rfl, by decide⟩

/-- C3 (amended): the column-name count of a finished table equals the width
of every data row; and the canonical names are pairwise distinct provided
no base name equals another base name followed by an underscore and a
positive decimal numeral (`BaseSuffixFree`) — the proviso that the claim's
own example ["plot", "plot", "plot_1"] violates. -/
theorem c3_nodup_and_width :
    (∀ raws : List String, BaseSuffixFree (raws.map normalizeBase) →
      (normalizeNames raws).Nodup) ∧
    (∀ (g : List (List Cell)) (t : Table) (hr : List Nat),
      loadSheet g = .ok (t, hr) → ∀ r ∈ t.rows, r.length = t.names.length) := by
  constructor
  · intro raws hB
    rw [normalizeNames_eq_goNorm]
    exact goNorm_nodup (raws.map normalizeBase) [] (by simpa using hB)
  · intro g t hr h r hrmem
    obtain ⟨hn, hrows⟩ := loadSheet_ok_clean g t hr h
    rw [hn]
    apply cleanTable_width
    rw [← hrows]
    exact hrmem

theorem c3_nodup_and_width_witness : (normalizeNames ["Plot", "plot"]).Nodup := by
  apply (c3_nodup_and_width).1 ["Plot", "plot"]
  intro b1 b2 hb1 hb2 k
  have he : (["Plot", "plot"].map normalizeBase) = ["plot", "plot"] := rfl
  rw [he] at hb1 hb2
  have h1 : b1 = "plot" := by
    rcases List.mem_cons.1 hb1 with h | h
    · exact h
    · simpa using h
  have h2 : b2 = "plot" := by
    rcases List.mem_cons.1 hb2 with h | h
    · exact h
    · simpa using h
  subst h1
  subst h2
  exact ne_append_repr "plot" "plot" (by decide) (k + 1)

/-- C4 is false in its "fatal only for the affected sheet" part: a workbook
whose first sheet fails materialization (here: 19 blank rows, the header
on row 19, so the re-read with `skiprows = 20` is empty below the header
block and assigning 2 names to a 0-column frame raises) aborts the whole
`load_excel` call; the second sheet, although loadable on its own, is
never processed or registered.  Also, a data block merely NARROWER than
the header does not fail at all: pandas pads the re-read to the whole
sheet's width and the padding column is dropped as all-empty. -/
theorem c4_counterexample :
    loadExcelInto "f" []
      [("s1", List.replicate 19 [Cell.missing, Cell.missing]
                ++ [[Cell.text "tratamento", Cell.text "x"]]),
       ("s2", [[Cell.text "tratamento", Cell.text "x"], [Cell.num 1, Cell.num 2]])]
      = ([], some .widthErr) ∧
    (loadSheet [[Cell.text "tratamento", Cell.text "x"],
                [Cell.num 1, Cell.num 2]]).isOk = true ∧
    Except.map (fun p => (Prod.fst p).names)
      (loadSheet [[Cell.text "tratamento", Cell.text "a", Cell.text "b"],
                  [Cell.num 1, Cell.num 2]])
      = .ok ["tratamento", "a"] :=
  ⟨rfl, rfl, rfl⟩

/-- C4 (amended): materialization fails with the width error (the spec's
MaterializationError) exactly when the synthesized column-name count
differs from the re-read frame's width — which happens when the grid is
empty below the header block (0-column frame) or a row beyond the 20-row
peek makes the whole sheet wider than the peek, but NOT when the data
below is merely narrower, since pandas pads the re-read to the whole
sheet's width; the error is surfaced rather than repaired, but it aborts
the whole `load_excel` call: the sheets after the failing one are not
processed, and only registrations made before the failure remain. -/
theorem c4_error_propagation :
    (∀ (g : List (List Cell)) (hrows : List Nat),
      headerRows (peekOf g) (startOf g) = .ok hrows →
      (namesOf g hrows).length ≠ reReadWidth g hrows →
      loadSheet g = .error .widthErr) ∧
    (∀ (stem : String) (reg : DataFrameRegistry) (nm : String)
       (g : List (List Cell)) (rest : List (String × List (List Cell))) (e : LoadErr),
      loadSheet g = .error e →
      loadExcelInto stem reg ((nm, g) :: rest) = (reg, some e)) := by
  constructor
  · intro g hrows hh hw
    unfold loadSheet
    rw [hh]
    exact if_pos hw
  · intro stem reg nm g rest e h
    unfold loadExcelInto
    rw [h]

theorem c4_error_propagation_witness :
    loadExcelInto "g" []
      [("sheet", List.replicate 19 [Cell.missing, Cell.missing]
                   ++ [[Cell.text "tratamento", Cell.text "x"]])]
      = ([], some .widthErr) :=
  (c4_error_propagation).2 "g" [] "sheet"
    (List.replicate 19 [Cell.missing, Cell.missing]
      ++ [[Cell.text "tratamento", Cell.text "x"]])
    [] .widthErr rfl

/-- C5 is false as stated: `.replace(" ", "_")` maps each space character to
one underscore, so a run of two spaces becomes two underscores, not one,
and a tab is not replaced at all; `specNormalizeName` (the claim's wording)
disagrees with the source transform on both inputs. -/
theorem c5_counterexample :
    normalizeBase "a  b" = "a__b" ∧ specNormalizeName "a  b" = "a_b" ∧
    ("a__b" : String) ≠ "a_b" ∧
    normalizeBase "a\tb" = "a\tb" ∧ specNormalizeName "a\tb" = "a_b" :=
  ⟨rfl, rfl, by decide, rfl, rfl⟩

/-- C5 (amended): name normalization trims surrounding whitespace,
lowercases, and then replaces each space character separately by an
underscore: no space survives, but a run of k spaces yields k underscores
and tabs (or other non-space whitespace) are preserved, not replaced. -/
theorem c5_space_replacement :
    (∀ s : String, (normalizeBase s).data
        = (pyLower (pyStrip s)).data.map (fun c => if c = ' ' then '_' else c)) ∧
    (∀ s : String, ' ' ∉ (normalizeBase s).data) ∧
    (∀ s : String, '\t' ∈ (pyLower (pyStrip s)).data → '\t' ∈ (normalizeBase s).data) := by
  refine ⟨fun s => rfl, ?_, ?_⟩
  · intro s hmem
    have hd : (normalizeBase s).data
        = (pyLower (pyStrip s)).data.map (fun c => if c = ' ' then '_' else c) := rfl
    rw [hd] at hmem
    obtain ⟨c, hc, hceq⟩ := List.mem_map.1 hmem
    by_cases h : c = ' '
    · rw [if_pos h] at hceq
      exact absurd hceq (by decide)
    · rw [if_neg h] at hceq
      exact h hceq
  · intro s hmem
    have hd : (normalizeBase s).data
        = (pyLower (pyStrip s)).data.map (fun c => if c = ' ' then '_' else c) := rfl
    rw [hd]
    exact List.mem_map.2 ⟨'\t', hmem, by decide⟩

theorem c5_space_replacement_witness :
    '\t' ∈ (normalizeBase "a\tb").data :=
  (c5_space_replacement).2.2 "a\tb" (by decide)

/-- C6: canonical-name collision suffixing is order-stable and
insertion-order dependent: the i-th emitted name is the bare normalized
base when no earlier column shares that base, and base_N when exactly N
earlier columns share it; in particular ["Plot", "plot", "PLOT"]
normalizes to ["plot", "plot_1", "plot_2"] in that order. -/
theorem c6_collision_suffixing :
    (∀ (raws : List String) (i : Nat), i < raws.length →
      (normalizeNames raws).getD i "" =
        (if ((raws.map normalizeBase).take i).count ((raws.map normalizeBase).getD i "") = 0
         then (raws.map normalizeBase).getD i ""
         else (raws.map normalizeBase).getD i "" ++ "_" ++
           Nat.repr (((raws.map normalizeBase).take i).count
             ((raws.map normalizeBase).getD i "")))) ∧
    normalizeNames ["Plot", "plot", "PLOT"] = ["plot", "plot_1", "plot_2"] := by
  constructor
  · intro raws i hi
    rw [normalizeNames_eq_goNorm]
    rw [goNorm_getD (raws.map normalizeBase) [] i (by simpa using hi)]
    simp only [List.nil_append]
    rfl
  · rfl

theorem c6_collision_suffixing_witness :
    (normalizeNames ["a", "a"]).getD 1 "" = "a_1" := by
  rw [(c6_collision_suffixing).1 ["a", "a"] 1 (by decide)]
  rfl

/-- C7 is violated by the code: in a two-row sheet whose start row is 0 and
whose row 1 is header-like (strings dominate numbers and a cell is
non-missing) the extension loop fetches row index 2 of the two-row peek
frame and raises `IndexError`: no header block at all is produced, instead
of the claimed contiguous block that always contains the start row. -/
theorem c7_header_extension_index_error :
    loadSheet [[Cell.text "tratamento"], [Cell.text "a"]] = .error .indexErr ∧
    isHeaderLike [Cell.text "a"] = true ∧
    startOf [[Cell.text "tratamento"], [Cell.text "a"]] = 0 :=
  ⟨rfl, rfl, rfl⟩

/-- C8: composite-name synthesis: per column, the kept fragments form a
subsequence of the (forward-filled, trimmed) fragment values, each kept
fragment is non-empty, kept fragments are pairwise distinct after
lowercasing while the original casing is preserved in the output, and
every non-empty value is represented by its lowercase class; a column
with no fragments is named unnamed_<position> with the 0-based position
(concrete header merges shown last). -/
theorem c8_composite_names :
    (∀ vals : List String, (collectParts vals).Sublist vals) ∧
    (∀ (vals : List String) (p : String), p ∈ collectParts vals → p ≠ "") ∧
    (∀ vals : List String, ((collectParts vals).map pyLower).Nodup) ∧
    (∀ (vals : List String) (v : String), v ∈ vals → v ≠ "" →
      pyLower v ∈ (collectParts vals).map pyLower) ∧
    mergeHeader [[Cell.missing, Cell.text "A"], [Cell.missing, Cell.text "a"]] 2
      = ["unnamed_0", "A"] ∧
    mergeHeader [[Cell.text "Plot", Cell.missing, Cell.text "Date"],
                 [Cell.text "PLOT", Cell.text "sub", Cell.missing]] 3
      = ["Plot", "Plot_sub", "Date_sub"] := by
  refine ⟨?_, ?_, ?_, ?_, rfl, rfl⟩
  · intro vals
    obtain ⟨t, ht, hs⟩ := foldl_keepFragment_extend vals []
    unfold collectParts
    rw [ht]
    simpa using hs
  · intro vals p hp
    unfold collectParts at hp
    rcases mem_foldl_keepFragment vals [] p hp with h | ⟨h1, h2⟩
    · simp at h
    · exact h2
  · intro vals
    exact nodup_foldl_keepFragment vals [] (by simp)
  · intro vals v hv hne
    exact lower_mem_foldl_keepFragment vals [] v hv hne

theorem c8_composite_names_witness :
    pyLower "B" ∈ (collectParts ["", "B"]).map pyLower :=
  (c8_composite_names).2.2.2.1 ["", "B"] "B" (by decide) (by decide)

/-- C9: `get`, `get_metadata` and `unregister` fail exactly when the name is
not registered; when it is present, `get` returns the registered table,
`get_metadata` its metadata, and `unregister` removes the entry while
leaving every other name's binding unchanged. -/
theorem c9_registry_ops (reg : DataFrameRegistry) (name : String) :
    (List.lookup name reg = none →
      getTable reg name = .error () ∧ getMetadata reg name = .error () ∧
      unregister reg name = .error ()) ∧
    (∀ e : DataFrameEntry, List.lookup name reg = some e →
      getTable reg name = .ok e.dataframe ∧
      getMetadata reg name = .ok e.metadata ∧
      ∃ reg2, unregister reg name = .ok reg2 ∧
        List.lookup name reg2 = none ∧
        ∀ m, m ≠ name → List.lookup m reg2 = List.lookup m reg) := by
  constructor
  · intro h
    refine ⟨?_, ?_, ?_⟩
    · unfold getTable
      rw [h]
    · unfold getMetadata
      rw [h]
    · unfold unregister
      rw [h]
      simp
  · intro e he
    refine ⟨?_, ?_, ?_⟩
    · unfold getTable
      rw [he]
    · unfold getMetadata
      rw [he]
    · refine ⟨reg.filter (fun p => p.1 ≠ name), ?_, ?_, ?_⟩
      · unfold unregister
        rw [he]
        simp
      · exact lookup_filter_self name reg
      · intro m hm
        exact lookup_filter_other name m hm reg

theorem c9_registry_ops_witness :
    getTable [("t", ⟨⟨["a"], [[Cell.num 1]]⟩, []⟩)] "t"
      = .ok (⟨["a"], [[Cell.num 1]]⟩ : Table) :=
  ((c9_registry_ops [("t", ⟨⟨["a"], [[Cell.num 1]]⟩, []⟩)] "t").2
    ⟨⟨["a"], [[Cell.num 1]]⟩, []⟩ rfl).1

/-- C10: fully-empty rows and columns are dropped before name normalization:
the finished names are exactly the normalization of the surviving columns'
raw names; an all-missing column anywhere in the column list contributes
nothing to collision-suffix numbering, and in the concrete sheet where an
empty "plot" column precedes a non-empty "plot" column the surviving
column keeps the bare name "plot". -/
theorem c10_empty_column_drop :
    (∀ (names : List String) (rows : List (List Cell)),
      (cleanTable names rows).1 =
        normalizeNames ((dropEmptyCols (columnsOf names
          (rows.filter (fun r => !rowEmpty r)))).map Prod.fst)) ∧
    (∀ (cs1 cs2 : List (String × List Cell)) (nm : String) (ec : List Cell),
      ec.all Cell.isMissing = true →
      normalizeNames ((dropEmptyCols (cs1 ++ (nm, ec) :: cs2)).map Prod.fst)
        = normalizeNames ((dropEmptyCols (cs1 ++ cs2)).map Prod.fst)) ∧
    Except.map (fun p => (Prod.fst p).names)
      (loadSheet [[Cell.text "plot", Cell.text "plot"],
                  [Cell.missing, Cell.num 1]])
      = .ok ["plot"] := by
  refine ⟨fun names rows => rfl, ?_, rfl⟩
  intro cs1 cs2 nm ec hec
  have h1 : dropEmptyCols (cs1 ++ (nm, ec) :: cs2)
      = dropEmptyCols cs1 ++ dropEmptyCols cs2 := by
    unfold dropEmptyCols
    rw [List.filter_append, List.filter_cons]
    simp [hec]
  have h2 : dropEmptyCols (cs1 ++ cs2) = dropEmptyCols cs1 ++ dropEmptyCols cs2 := by
    unfold dropEmptyCols
    rw [List.filter_append]
  rw [h1, h2]

theorem c10_empty_column_drop_witness :
    normalizeNames ((dropEmptyCols
        ([] ++ ("plot", [Cell.missing]) :: [("plot", [Cell.num 1])])).map Prod.fst)
      = normalizeNames ((dropEmptyCols
        (([] : List (String × List Cell)) ++ [("plot", [Cell.num 1])])).map Prod.fst) :=
  (c10_empty_column_drop).2.1 [] [("plot", [Cell.num 1])] "plot" [Cell.missing] (by decide)

end Agripandas
